import Mathlib

/-!
Shallow embedding of the wireworld-gpu simulation engine.

The program is a GPU-driven Wireworld cellular automaton.  The parts
embedded here are:

* the cell-state byte encoding (palette part of the source, constants
  `CellEmpty = 0`, `CellWire = 50`, `CellTail = 100`, `CellHead = 255`);
* the rule kernel (the fragment shader of `SimulationShader`): per-cell
  transition and `countHeadNeighbours` over the 8 Moore offsets, with the
  backend's default repeat (toroidal) texture addressing;
* the step driver (`Simulation.Step`): double-buffered ping-pong between
  the `input` and `output` framebuffers;
* the palette encode/decode (`toCellState`, `colorEquals`,
  `toInternalFormat`, `fromInternalFormat`);
* `SimulationState.SetData`;
* the clock controller (`decreaseClockspeed` / `increaseClockspeed`);
* the resource allocation/release flow of `NewSimulation` and
  `LoadSimulation`, modelled as an allocation-tracking state.

Texture texels are modelled by the byte they store: the shader's
`uint(texture(...).r * 255)` recovers the stored byte and
`uint(textureOffset(...).r)` is `1` exactly for the byte `255`
(`CellHead`, whose normalized value is exactly `1.0`) and `0` for every
smaller byte.  Go's 64-bit `int` and `time.Duration` arithmetic is
modelled on `Int` with an explicit two's-complement wrap at 2^64 where
overflow is reachable.
-/

namespace Wireworld

/-- Cell state byte `CellEmpty = 0` (palette source, `shader_shared.go`). -/
def CellEmpty : Nat := 0

/-- Cell state byte `CellWire = 50`. -/
def CellWire : Nat := 50

/-- Cell state byte `CellTail = 100`. -/
def CellTail : Nat := 100

/-- Cell state byte `CellHead = 255`. -/
def CellHead : Nat := 255

/-- One generation of the simulation: the texture of one
`SimulationState` framebuffer.  `cells x y` is the byte stored at texel
`(x, y)`; the kernel only ever addresses it through `texelAt`. -/
structure Grid where
  w : Nat
  h : Nat
  cells : Nat → Nat → Nat

/-- Sampling the input texture at integer texel coordinates.  The
source never sets `TEXTURE_WRAP_S/T`, so the backend's default repeat
addressing applies: out-of-range coordinates wrap modulo the grid
dimensions (`Int.emod` is nonnegative for a positive modulus). -/
def texelAt (g : Grid) (x y : Int) : Nat :=
  g.cells (x % (g.w : Int)).toNat (y % (g.h : Int)).toNat

/-- The contribution of one sampled neighbour in `countHeadNeighbours`:
`uint(textureOffset(input, fragUV, off).r)` truncates the normalized
red component to `1` exactly when the stored byte is `255 = CellHead`,
and to `0` for every other byte. -/
def headContribution (b : Nat) : Nat :=
  if b = CellHead then 1 else 0

/-- `countHeadNeighbours` of the simulation fragment shader: the sum of
the truncated red components over the 8 Moore offsets
`(-1,1),(0,1),(1,1),(-1,0),(1,0),(-1,-1),(0,-1),(1,-1)`. -/
def countHeadNeighbours (g : Grid) (x y : Int) : Nat :=
  headContribution (texelAt g (x - 1) (y + 1)) +
  headContribution (texelAt g x (y + 1)) +
  headContribution (texelAt g (x + 1) (y + 1)) +
  headContribution (texelAt g (x - 1) y) +
  headContribution (texelAt g (x + 1) y) +
  headContribution (texelAt g (x - 1) (y - 1)) +
  headContribution (texelAt g x (y - 1)) +
  headContribution (texelAt g (x + 1) (y - 1))

/-- The `main` function of the simulation fragment shader, for the
fragment at texel `(x, y)`: switch on the sampled cell byte, with the
`CellWire` case promoting to `CellHead` when the neighbour head count
is 1 or 2, `CellHead` decaying to `CellTail`, `CellTail` to `CellWire`,
and every other byte (in particular `CellEmpty`) left unchanged. -/
def stepCell (g : Grid) (x y : Int) : Nat :=
  let cell := texelAt g x y
  if cell = CellWire then
    let heads := countHeadNeighbours g x y
    if heads = 1 ∨ heads = 2 then CellHead else cell
  else if cell = CellHead then CellTail
  else if cell = CellTail then CellWire
  else cell

/-- One full-grid kernel pass: every cell of the output framebuffer is
computed by `stepCell` from the input grid alone. -/
def stepGrid (g : Grid) : Grid :=
  ⟨g.w, g.h, fun x y => stepCell g (x : Int) (y : Int)⟩

/-- The two framebuffers owned by `Simulation`: `input` is the current
(front) generation, `output` the render target (back). -/
structure Simulation where
  input : Grid
  output : Grid

/-- One iteration of the loop body of `Simulation.Step`: draw the full
quad into `output` (overwriting it with the kernel applied to `input`),
then swap the two states so the pass's output becomes the next input. -/
def runPass (s : Simulation) : Simulation :=
  { input := stepGrid s.input, output := s.input }

/-- The `for i := 0; i < n; i++` loop of `Simulation.Step`. -/
def stepLoop : Nat → Simulation → Simulation
  | 0, s => s
  | n + 1, s => stepLoop n (runPass s)

/-- `Simulation.Step(n)`: a no-op for `n < 1`, otherwise `n` passes. -/
def Step (n : Int) (s : Simulation) : Simulation :=
  if n < 1 then s else stepLoop n.toNat s

lemma texelAt_coe_of_lt (g : Grid) (x y : Nat) (hx : x < g.w) (hy : y < g.h) :
    texelAt g (x : Int) (y : Int) = g.cells x y := by
  unfold texelAt
  rw [Int.emod_eq_of_lt (Int.ofNat_nonneg x) (by exact_mod_cast hx),
    Int.emod_eq_of_lt (Int.ofNat_nonneg y) (by exact_mod_cast hy)]
  simp

/-- C1: one application of the rule kernel computes each cell's next
state from the previous generation only: the output cell is `stepCell`
of the input grid; `Empty` stays `Empty`; `Wire` becomes `Head` exactly
when the Moore-neighbourhood head count is 1 or 2 and otherwise stays
`Wire`; `Head` becomes `Tail`; `Tail` becomes `Wire`; and a sampled
cell in any state other than `Head` contributes 0 to the neighbour
count. -/
theorem rule_kernel_transition (g : Grid) (x y : Nat)
    (hx : x < g.w) (hy : y < g.h) :
    ((stepGrid g).cells x y = stepCell g x y) ∧
    (g.cells x y = CellEmpty → (stepGrid g).cells x y = CellEmpty) ∧
    (g.cells x y = CellWire →
      (stepGrid g).cells x y =
        if countHeadNeighbours g x y = 1 ∨ countHeadNeighbours g x y = 2
        then CellHead else CellWire) ∧
    (g.cells x y = CellHead → (stepGrid g).cells x y = CellTail) ∧
    (g.cells x y = CellTail → (stepGrid g).cells x y = CellWire) ∧
    (∀ b : Nat, b ≠ CellHead → headContribution b = 0) := by
  have hc : texelAt g (x : Int) (y : Int) = g.cells x y :=
    texelAt_coe_of_lt g x y hx hy
  refine ⟨rfl, ?_, ?_, ?_, ?_, ?_⟩
  · intro h
    show stepCell g (x : Int) (y : Int) = CellEmpty
    unfold stepCell
    rw [hc, h]
    simp [CellEmpty, CellWire, CellHead, CellTail]
  · intro h
    show stepCell g (x : Int) (y : Int) = _
    unfold stepCell
    rw [hc, h]
    simp [CellWire]
  · intro h
    show stepCell g (x : Int) (y : Int) = CellTail
    unfold stepCell
    rw [hc, h]
    simp [CellWire, CellHead]
  · intro h
    show stepCell g (x : Int) (y : Int) = CellWire
    unfold stepCell
    rw [hc, h]
    simp [CellWire, CellHead, CellTail]
  · intro b hb
    simp [headContribution, hb]

/-- A concrete 3×3 grid: a diamond of wire with an electron head in the
centre. -/
def wGrid : Grid :=
  ⟨3, 3, fun x y => (([[0, 50, 0], [50, 255, 50], [0, 50, 0]].getD y []).getD x 0)⟩

theorem rule_kernel_transition_witness :
    (1 < wGrid.w ∧ 1 < wGrid.h ∧ wGrid.cells 1 1 = CellHead) ∧
    (stepGrid wGrid).cells 1 1 = CellTail :=
  ⟨by decide,
    (rule_kernel_transition wGrid 1 1 (by decide) (by decide)).2.2.2.1 (by decide)⟩

lemma emod_self_toroidal (w : Nat) (hw : 1 ≤ w) :
    ((w : Int) % (w : Int) = 0) ∧ ((-1 : Int) % (w : Int) = (w : Int) - 1) := by
  constructor
  · exact Int.emod_self
  · have : (-1 : Int) % (w : Int) = ((w : Int) - 1) % (w : Int) := by
      conv_lhs => rw [show (-1 : Int) = ((w : Int) - 1) + (-1) * w by ring]
      rw [Int.add_mul_emod_self]
    rw [this]
    exact Int.emod_eq_of_lt (by omega) (by omega)

/-- C2: neighbour addressing in the rule kernel is toroidal.  Column
`w` wraps to column 0 and column `-1` to column `w-1` (same for rows),
and consequently a `Head` cell at column 0 is counted among the head
neighbours of the cell in the last column of the same row, and a `Head`
cell at row 0 among the head neighbours of the cell in the last row of
the same column — rather than being clamped or treated as `Empty`. -/
theorem toroidal_neighbour_wrap (g : Grid) (x y : Int)
    (hw : 2 ≤ g.w) (hh : 2 ≤ g.h) :
    (texelAt g (g.w : Int) y = texelAt g 0 y) ∧
    (texelAt g (-1) y = texelAt g ((g.w : Int) - 1) y) ∧
    (texelAt g x (g.h : Int) = texelAt g x 0) ∧
    (texelAt g x (-1) = texelAt g x ((g.h : Int) - 1)) ∧
    (texelAt g 0 y = CellHead →
      1 ≤ countHeadNeighbours g ((g.w : Int) - 1) y) ∧
    (texelAt g x 0 = CellHead →
      1 ≤ countHeadNeighbours g x ((g.h : Int) - 1)) := by
  obtain ⟨hws, hwm⟩ := emod_self_toroidal g.w (by omega)
  obtain ⟨hhs, hhm⟩ := emod_self_toroidal g.h (by omega)
  have hwlast : ((g.w : Int) - 1) % (g.w : Int) = (g.w : Int) - 1 :=
    Int.emod_eq_of_lt (by omega) (by omega)
  have hhlast : ((g.h : Int) - 1) % (g.h : Int) = (g.h : Int) - 1 :=
    Int.emod_eq_of_lt (by omega) (by omega)
  have hcol : texelAt g (g.w : Int) y = texelAt g 0 y := by
    unfold texelAt
    rw [hws, Int.zero_emod]
  have hcolm : texelAt g (-1) y = texelAt g ((g.w : Int) - 1) y := by
    unfold texelAt
    rw [hwm, hwlast]
  have hrow : texelAt g x (g.h : Int) = texelAt g x 0 := by
    unfold texelAt
    rw [hhs, Int.zero_emod]
  have hrowm : texelAt g x (-1) = texelAt g x ((g.h : Int) - 1) := by
    unfold texelAt
    rw [hhm, hhlast]
  refine ⟨hcol, hcolm, hrow, hrowm, ?_, ?_⟩
  · intro h
    have hterm :
        headContribution (texelAt g ((g.w : Int) - 1 + 1) y) = 1 := by
      rw [show ((g.w : Int) - 1 + 1) = (g.w : Int) by ring, hcol, h]
      simp [headContribution]
    unfold countHeadNeighbours
    omega
  · intro h
    have hterm :
        headContribution (texelAt g x ((g.h : Int) - 1 + 1)) = 1 := by
      rw [show ((g.h : Int) - 1 + 1) = (g.h : Int) by ring, hrow, h]
      simp [headContribution]
    unfold countHeadNeighbours
    omega

/-- A concrete 3×3 grid with an electron head in the first column. -/
def wGridEdge : Grid :=
  ⟨3, 3, fun x y => (([[255, 50, 0], [50, 0, 50], [0, 50, 0]].getD y []).getD x 0)⟩

theorem toroidal_neighbour_wrap_witness :
    (2 ≤ wGridEdge.w ∧ 2 ≤ wGridEdge.h ∧ texelAt wGridEdge 0 0 = CellHead) ∧
    1 ≤ countHeadNeighbours wGridEdge ((wGridEdge.w : Int) - 1) 0 :=
  ⟨⟨by decide, by decide, by decide⟩,
    (toroidal_neighbour_wrap wGridEdge 0 0 (by decide) (by decide)).2.2.2.2.1
      (by decide)⟩

lemma step_one_eq_runPass (s : Simulation) : Step 1 s = runPass s := by
  simp [Step, stepLoop]

lemma stepLoop_eq_iterate (m : Nat) (s : Simulation) :
    stepLoop m s = runPass^[m] s := by
  induction m generalizing s with
  | zero => rfl
  | succ k ih =>
    rw [stepLoop, ih, Function.iterate_succ_apply]

/-- C3: for every simulation state and every `n ≥ 1`, `Step(n)` equals
`Step(1)` iterated `n` times, and a single pass renders the kernel
applied to the front grid and then swaps, so each pass reads the
previous pass's output. -/
theorem step_n_eq_iterated_step_one (s : Simulation) (n : Int) (hn : 1 ≤ n) :
    Step n s = (fun t => Step 1 t)^[n.toNat] s ∧
    Step 1 s = ⟨stepGrid s.input, s.input⟩ := by
  constructor
  · have hfun : (fun t => Step 1 t) = runPass := funext step_one_eq_runPass
    rw [Step, if_neg (by omega), hfun, stepLoop_eq_iterate]
  · exact step_one_eq_runPass s

/-- A concrete simulation state built from the 3×3 example grid. -/
def wSim : Simulation := ⟨wGrid, wGridEdge⟩

theorem step_n_eq_iterated_step_one_witness :
    (1 : Int) ≤ 5 ∧
    (Step 5 wSim = (fun t => Step 1 t)^[(5 : Int).toNat] wSim ∧
      Step 1 wSim = ⟨stepGrid wSim.input, wSim.input⟩) :=
  ⟨by decide, step_n_eq_iterated_step_one wSim 5 (by decide)⟩

/-- C4: for every simulation state and every `n < 1` (0 and all
negative `n`), `Step(n)` is a no-op: both grids and the front/back
roles are exactly as before the call. -/
theorem step_noop_of_lt_one (s : Simulation) (n : Int) (hn : n < 1) :
    Step n s = s := by
  simp [Step, hn]

theorem step_noop_of_lt_one_witness :
    ((0 : Int) < 1 ∧ Step 0 wSim = wSim) ∧
    ((-3 : Int) < 1 ∧ Step (-3) wSim = wSim) :=
  ⟨⟨by decide, step_noop_of_lt_one wSim 0 (by decide)⟩,
    ⟨by decide, step_noop_of_lt_one wSim (-3) (by decide)⟩⟩

/-- An RGBA color with byte components, Go's `color.RGBA`. -/
structure RGBA where
  r : Nat
  g : Nat
  b : Nat
  a : Nat
deriving DecidableEq

/-- Go `color.RGBA.RGBA()`: each 8-bit component is replicated to 16
bits (`c * 0x101`); `color.RGBA` is alpha-premultiplied by convention,
so no arithmetic involves the alpha component. -/
def rgba16 (c : RGBA) : Nat × Nat × Nat × Nat :=
  (c.r * 0x101, c.g * 0x101, c.b * 0x101, c.a * 0x101)

/-- `colorEquals` from the palette source: it compares the 16-bit red,
green and blue components returned by `RGBA()` and discards both alpha
components (`ar, ag, ab, _ := a.RGBA()`). -/
def colorEquals (x y : RGBA) : Bool :=
  (rgba16 x).1 == (rgba16 y).1 &&
  (rgba16 x).2.1 == (rgba16 y).2.1 &&
  (rgba16 x).2.2.1 == (rgba16 y).2.2.1

/-- The four configured cell colors. -/
structure Palette where
  Empty : RGBA
  Wire : RGBA
  Head : RGBA
  Tail : RGBA

/-- `Palette.toCellState`: translate a color to its internal cell byte,
testing `Wire`, `Head`, `Tail` in order and treating all other colors
as empty cells. -/
def toCellState (p : Palette) (c : RGBA) : Nat :=
  if colorEquals p.Wire c then CellWire
  else if colorEquals p.Head c then CellHead
  else if colorEquals p.Tail c then CellTail
  else CellEmpty

/-- `Palette.LoadDefault`: the default palette colors. -/
def defaultPalette : Palette :=
  ⟨⟨0x00, 0x00, 0x00, 0xff⟩, ⟨0x01, 0x5b, 0x96, 0xff⟩,
    ⟨0xff, 0xff, 0xff, 0xff⟩, ⟨0x99, 0xff, 0x00, 0xff⟩⟩

/-- Component-wise equality of the red, green and blue bytes only. -/
def sameRGB (x y : RGBA) : Prop :=
  x.r = y.r ∧ x.g = y.g ∧ x.b = y.b

instance (x y : RGBA) : Decidable (sameRGB x y) :=
  inferInstanceAs (Decidable (x.r = y.r ∧ x.g = y.g ∧ x.b = y.b))

lemma colorEquals_iff (x y : RGBA) : colorEquals x y = true ↔ sameRGB x y := by
  simp only [colorEquals, rgba16, sameRGB, Bool.and_eq_true, beq_iff_eq]
  omega

lemma colorEquals_self (x : RGBA) : colorEquals x x = true := by
  simp [colorEquals]

/-- C5 fails as stated: under the default palette the pixel color
`(1, 0x5b, 0x96, 0)` equals no configured palette color component-wise
(its alpha differs from all four entries), so the claim requires
`Decode` to return `Empty`; the code returns `Wire`, because
`colorEquals` discards the alpha components. -/
theorem decode_alpha_counterexample :
    (RGBA.mk 1 0x5b 0x96 0 ≠ defaultPalette.Empty ∧
      RGBA.mk 1 0x5b 0x96 0 ≠ defaultPalette.Wire ∧
      RGBA.mk 1 0x5b 0x96 0 ≠ defaultPalette.Head ∧
      RGBA.mk 1 0x5b 0x96 0 ≠ defaultPalette.Tail) ∧
    toCellState defaultPalette (RGBA.mk 1 0x5b 0x96 0) = CellWire ∧
    CellWire ≠ CellEmpty := by
  decide

/-- C5 amended: `Decode` compares only the red, green and blue
components and ignores alpha entirely; it returns the state of the
first palette entry (in the order `Wire`, `Head`, `Tail`) whose RGB
equals the pixel's RGB, and `Empty` when none matches. -/
theorem decode_rgb_only (p : Palette) (c : RGBA) :
    (∀ a1 a2 : Nat,
      toCellState p ⟨c.r, c.g, c.b, a1⟩ = toCellState p ⟨c.r, c.g, c.b, a2⟩) ∧
    (sameRGB p.Wire c → toCellState p c = CellWire) ∧
    (¬sameRGB p.Wire c → sameRGB p.Head c → toCellState p c = CellHead) ∧
    (¬sameRGB p.Wire c → ¬sameRGB p.Head c → sameRGB p.Tail c →
      toCellState p c = CellTail) ∧
    (¬sameRGB p.Wire c → ¬sameRGB p.Head c → ¬sameRGB p.Tail c →
      toCellState p c = CellEmpty) := by
  have hfalse : ∀ x : RGBA, ¬sameRGB x c → colorEquals x c = false := by
    intro x hx
    rw [Bool.eq_false_iff]
    intro hcontra
    exact hx ((colorEquals_iff x c).mp hcontra)
  refine ⟨?_, ?_, ?_, ?_, ?_⟩
  · intro a1 a2
    simp [toCellState, colorEquals, rgba16]
  · intro h
    simp [toCellState, (colorEquals_iff p.Wire c).mpr h]
  · intro hw h
    simp [toCellState, hfalse _ hw, (colorEquals_iff p.Head c).mpr h]
  · intro hw hh h
    simp [toCellState, hfalse _ hw, hfalse _ hh, (colorEquals_iff p.Tail c).mpr h]
  · intro hw hh ht
    simp [toCellState, hfalse _ hw, hfalse _ hh, hfalse _ ht]

theorem decode_rgb_only_witness :
    sameRGB defaultPalette.Wire (RGBA.mk 1 0x5b 0x96 7) ∧
    toCellState defaultPalette (RGBA.mk 1 0x5b 0x96 7) = CellWire :=
  ⟨by decide,
    (decode_rgb_only defaultPalette (RGBA.mk 1 0x5b 0x96 7)).2.1 (by decide)⟩

/-- An RGBA raster image with zero-based bounds, row-major pixel list
(`image.RGBA` with `Rect(0,0,w,h)`, stride `w`). -/
structure RGBAImg where
  w : Nat
  h : Nat
  pix : List RGBA

/-- Go `image.RGBA.At` for a zero-based image: out-of-bounds
coordinates yield the zero color, in-bounds ones read
`Pix[y*Stride + x]`. -/
def rgbaAt (img : RGBAImg) (x y : Nat) : RGBA :=
  if x < img.w ∧ y < img.h then img.pix.getD (y * img.w + x) ⟨0, 0, 0, 0⟩
  else ⟨0, 0, 0, 0⟩

/-- Go `image.*.Set` for a zero-based `w × h` image: writing outside
the bounds is a no-op, writing inside stores at `y*Stride + x`. -/
def setPix {α : Type} (w h : Nat) (pix : List α) (x y : Nat) (v : α) : List α :=
  if x < w ∧ y < h then pix.set (y * w + x) v else pix

/-- The inner (`x`) loop of the converters' nested pixel loops:
`cols` iterations writing row `y`. -/
def writeRow {α : Type} (w h cols y : Nat) (f : Nat → Nat → α)
    (acc : List α) : List α :=
  (List.range cols).foldl (fun acc2 x => setPix w h acc2 x y (f x y)) acc

/-- The outer (`y`) loop: `rows` iterations of `writeRow`. -/
def writePass {α : Type} (w h rows cols : Nat) (f : Nat → Nat → α)
    (init : List α) : List α :=
  (List.range rows).foldl (fun acc y => writeRow w h cols y f acc) init

/-- `Palette.toInternalFormat`: convert an image to the 8bpp internal
buffer.  The Go loops run `y` and `x` up to and **including**
`b.Max.Y` / `b.Max.X` (one row and one column past the last pixel);
those extra iterations read the zero color through `At` and are
discarded by the bounds check in `Set`, exactly as in the source.  The
result is the `Pix` buffer of a zero-initialised `image.Alpha` of the
same bounds, and the image dimensions. -/
def toInternalFormat (p : Palette) (img : RGBAImg) : List Nat × Nat × Nat :=
  (writePass img.w img.h (img.h + 1) (img.w + 1)
      (fun x y => toCellState p (rgbaAt img x y))
      (List.replicate (img.w * img.h) 0),
    img.w, img.h)

/-- The color written by `Palette.fromInternalFormat` for one cell
byte: `Wire`, `Head` and `Tail` get their palette colors and every
other byte the `Empty` color. -/
def cellColor (p : Palette) (b : Nat) : RGBA :=
  if b = CellWire then p.Wire
  else if b = CellHead then p.Head
  else if b = CellTail then p.Tail
  else p.Empty

/-- `Palette.fromInternalFormat`: convert an 8bpp buffer into an RGBA
image, reading `pix[y*w+x]` for every in-bounds pixel (these loops use
strict bounds in the source). -/
def fromInternalFormat (p : Palette) (pix : List Nat) (w h : Nat) : RGBAImg :=
  ⟨w, h,
    writePass w h h w (fun x y => cellColor p (pix.getD (y * w + x) 0))
      (List.replicate (w * h) ⟨0, 0, 0, 0⟩)⟩

lemma getD_set_self {α : Type} (l : List α) (i : Nat) (v d : α)
    (h : i < l.length) : (l.set i v).getD i d = v := by
  rw [List.getD_eq_getElem?_getD, List.getElem?_set_self (by simpa using h)]
  rfl

lemma getD_set_of_ne {α : Type} (l : List α) (i j : Nat) (v d : α)
    (h : i ≠ j) : (l.set i v).getD j d = l.getD j d := by
  rw [List.getD_eq_getElem?_getD, List.getElem?_set_ne h,
    ← List.getD_eq_getElem?_getD]

lemma length_setPix {α : Type} (w h : Nat) (pix : List α) (x y : Nat) (v : α) :
    (setPix w h pix x y v).length = pix.length := by
  unfold setPix
  split
  · exact List.length_set pix _ v
  · rfl

lemma writeRow_succ {α : Type} (w h cols y : Nat) (f : Nat → Nat → α)
    (acc : List α) :
    writeRow w h (cols + 1) y f acc =
      setPix w h (writeRow w h cols y f acc) cols y (f cols y) := by
  unfold writeRow
  rw [List.range_succ, List.foldl_append]
  rfl

lemma length_writeRow {α : Type} (w h cols y : Nat) (f : Nat → Nat → α)
    (acc : List α) : (writeRow w h cols y f acc).length = acc.length := by
  induction cols with
  | zero => rfl
  | succ k ih => rw [writeRow_succ, length_setPix, ih]

lemma writeRow_of_le {α : Type} (w h cols y : Nat) (f : Nat → Nat → α)
    (acc : List α) (hy : h ≤ y) : writeRow w h cols y f acc = acc := by
  induction cols with
  | zero => rfl
  | succ k ih =>
    rw [writeRow_succ, ih, setPix, if_neg (by omega)]

lemma writeRow_getD {α : Type} (w h cols y : Nat) (f : Nat → Nat → α)
    (acc : List α) (d : α) (hacc : acc.length = w * h) (hy : y < h)
    (j : Nat) :
    (writeRow w h cols y f acc).getD j d =
      if y * w ≤ j ∧ j < y * w + min cols w then f (j - y * w) y
      else acc.getD j d := by
  induction cols with
  | zero =>
    rw [if_neg (by omega)]
    rfl
  | succ k ih =>
    rw [writeRow_succ]
    by_cases hkw : k < w
    · rw [setPix, if_pos ⟨hkw, hy⟩]
      have hidx : y * w + k < (writeRow w h k y f acc).length := by
        rw [length_writeRow, hacc]
        calc y * w + k < y * w + w := by omega
        _ = (y + 1) * w := by ring
        _ ≤ h * w := Nat.mul_le_mul_right w (by omega)
        _ = w * h := Nat.mul_comm h w
      by_cases hj : j = y * w + k
      · subst hj
        rw [getD_set_self _ _ _ _ hidx, if_pos (by omega)]
        congr 1
        omega
      · rw [getD_set_of_ne _ _ _ _ _ (by omega), ih]
        have hmin1 : min (k + 1) w = k + 1 := by omega
        have hmin2 : min k w = k := by omega
        rw [hmin1, hmin2]
        split
        · rw [if_pos (by omega)]
        · rw [if_neg (by omega)]
    · rw [setPix, if_neg (by omega), ih]
      have hmin : min (k + 1) w = min k w := by omega
      rw [hmin]

lemma writePass_succ {α : Type} (w h rows cols : Nat) (f : Nat → Nat → α)
    (init : List α) :
    writePass w h (rows + 1) cols f init =
      writeRow w h cols rows f (writePass w h rows cols f init) := by
  unfold writePass
  rw [List.range_succ, List.foldl_append]
  rfl

lemma length_writePass {α : Type} (w h rows cols : Nat) (f : Nat → Nat → α)
    (init : List α) : (writePass w h rows cols f init).length = init.length := by
  induction rows with
  | zero => rfl
  | succ k ih => rw [writePass_succ, length_writeRow, ih]

lemma row_window {w x y k : Nat} (hx : x < w) :
    (k * w ≤ y * w + x ∧ y * w + x < k * w + w) ↔ y = k := by
  constructor
  · rintro ⟨h1, h2⟩
    by_contra hne
    rcases Nat.lt_or_ge y k with hlt | hge
    · have h3 : (y + 1) * w ≤ k * w := Nat.mul_le_mul_right w hlt
      rw [Nat.succ_mul] at h3
      omega
    · have hgt : k + 1 ≤ y := by omega
      have h3 : (k + 1) * w ≤ y * w := Nat.mul_le_mul_right w hgt
      rw [Nat.succ_mul] at h3
      omega
  · rintro rfl
    omega

lemma writePass_getD {α : Type} (w h rows cols : Nat) (f : Nat → Nat → α)
    (init : List α) (d : α) (hinit : init.length = w * h) (hcols : w ≤ cols)
    (x y : Nat) (hx : x < w) (hy : y < h) :
    (writePass w h rows cols f init).getD (y * w + x) d =
      if y < rows then f x y else init.getD (y * w + x) d := by
  induction rows with
  | zero =>
    rw [if_neg (by omega)]
    rfl
  | succ k ih =>
    rw [writePass_succ]
    by_cases hkh : k < h
    · rw [writeRow_getD w h cols k f _ d
        (by rw [length_writePass, hinit]) hkh]
      have hmincols : min cols w = w := by omega
      rw [hmincols]
      by_cases hyk : y = k
      · subst hyk
        rw [if_pos ((row_window hx).mpr rfl), if_pos (by omega)]
        congr 1
        omega
      · have hcond : ¬(k * w ≤ y * w + x ∧ y * w + x < k * w + w) := by
          rw [row_window hx]
          exact hyk
        rw [if_neg hcond, ih]
        by_cases hyk2 : y < k
        · rw [if_pos hyk2, if_pos (show y < k + 1 by omega)]
        · rw [if_neg hyk2, if_neg (show ¬y < k + 1 by omega)]
    · rw [writeRow_of_le _ _ _ _ _ _ (by omega), ih,
        if_pos (show y < k by omega), if_pos (show y < k + 1 by omega)]

lemma toInternalFormat_getD (p : Palette) (img : RGBAImg) (x y : Nat)
    (hx : x < img.w) (hy : y < img.h) :
    (toInternalFormat p img).1.getD (y * img.w + x) 0 =
      toCellState p (img.pix.getD (y * img.w + x) ⟨0, 0, 0, 0⟩) := by
  unfold toInternalFormat
  rw [writePass_getD img.w img.h (img.h + 1) (img.w + 1) _ _ 0
    (by simp) (by omega) x y hx hy, if_pos (by omega)]
  unfold rgbaAt
  rw [if_pos ⟨hx, hy⟩]

lemma fromInternalFormat_getD (p : Palette) (pix : List Nat) (w h : Nat)
    (x y : Nat) (hx : x < w) (hy : y < h) :
    (fromInternalFormat p pix w h).pix.getD (y * w + x) ⟨0, 0, 0, 0⟩ =
      cellColor p (pix.getD (y * w + x) 0) := by
  unfold fromInternalFormat
  simp only
  rw [writePass_getD w h h w _ _ _ (by simp) (le_refl w) x y hx hy, if_pos hy]

lemma rgba_eq_of (x y : RGBA) (h1 : x.r = y.r) (h2 : x.g = y.g)
    (h3 : x.b = y.b) (h4 : x.a = y.a) : x = y := by
  cases x
  cases y
  simp_all

lemma eq_of_colorEquals (u v : RGBA) (h : colorEquals u v = true)
    (ha : u.a = v.a) : u = v := by
  obtain ⟨h1, h2, h3⟩ := (colorEquals_iff u v).mp h
  exact rgba_eq_of u v h1 h2 h3 ha

lemma roundtrip_color (p : Palette) (c : RGBA)
    (hE : p.Empty.a = 255) (hW : p.Wire.a = 255) (hH : p.Head.a = 255)
    (hT : p.Tail.a = 255)
    (hc : c = p.Empty ∨ c = p.Wire ∨ c = p.Head ∨ c = p.Tail) :
    cellColor p (toCellState p c) = c := by
  have hca : c.a = 255 := by
    rcases hc with h | h | h | h <;> (subst h; assumption)
  have hcw : cellColor p CellWire = p.Wire := by
    simp [cellColor]
  have hch : cellColor p CellHead = p.Head := by
    simp [cellColor, CellWire, CellHead]
  have hct : cellColor p CellTail = p.Tail := by
    simp [cellColor, CellWire, CellHead, CellTail]
  have hce : cellColor p CellEmpty = p.Empty := by
    simp [cellColor, CellWire, CellHead, CellTail, CellEmpty]
  unfold toCellState
  by_cases h1 : colorEquals p.Wire c = true
  · rw [if_pos h1, hcw]
    exact eq_of_colorEquals _ _ h1 (by omega)
  · rw [if_neg h1]
    by_cases h2 : colorEquals p.Head c = true
    · rw [if_pos h2, hch]
      exact eq_of_colorEquals _ _ h2 (by omega)
    · rw [if_neg h2]
      by_cases h3 : colorEquals p.Tail c = true
      · rw [if_pos h3, hct]
        exact eq_of_colorEquals _ _ h3 (by omega)
      · rw [if_neg h3, hce]
        rcases hc with h | h | h | h
        · exact h.symm
        · exact absurd (show colorEquals p.Wire c = true by
            rw [h]; exact colorEquals_self p.Wire) h1
        · exact absurd (show colorEquals p.Head c = true by
            rw [h]; exact colorEquals_self p.Head) h2
        · exact absurd (show colorEquals p.Tail c = true by
            rw [h]; exact colorEquals_self p.Tail) h3

/-- C6: for an image all of whose pixels carry one of the four
configured palette colors, with the palette fully opaque, converting to
the internal 8bpp grid and back reproduces the image with identical
pixels. -/
theorem image_roundtrip (p : Palette) (img : RGBAImg)
    (hE : p.Empty.a = 255) (hW : p.Wire.a = 255) (hH : p.Head.a = 255)
    (hT : p.Tail.a = 255) (hlen : img.pix.length = img.w * img.h)
    (hpix : ∀ c ∈ img.pix,
      c = p.Empty ∨ c = p.Wire ∨ c = p.Head ∨ c = p.Tail) :
    fromInternalFormat p (toInternalFormat p img).1 img.w img.h = img := by
  obtain ⟨w, h, pix⟩ := img
  simp only at hlen hpix
  have hpixlen :
      (fromInternalFormat p (toInternalFormat p ⟨w, h, pix⟩).1 w h).pix.length
        = pix.length := by
    unfold fromInternalFormat
    simp only
    rw [length_writePass, List.length_replicate, hlen]
  have hmain : ∀ i : Nat, i < w * h →
      (fromInternalFormat p (toInternalFormat p ⟨w, h, pix⟩).1 w h).pix.getD i
        ⟨0, 0, 0, 0⟩ = pix.getD i ⟨0, 0, 0, 0⟩ := by
    intro i hi
    have hw0 : 0 < w := by
      rcases Nat.eq_zero_or_pos w with h0 | h0
      · subst h0
        simp at hi
      · exact h0
    have hx : i % w < w := Nat.mod_lt i hw0
    have hy : i / w < h := Nat.div_lt_of_lt_mul hi
    have hiw : (i / w) * w + i % w = i := by
      rw [Nat.mul_comm]
      exact Nat.div_add_mod i w
    rw [← hiw, fromInternalFormat_getD p _ w h _ _ hx hy,
      toInternalFormat_getD p ⟨w, h, pix⟩ _ _ hx hy]
    have hmem : pix.getD ((i / w) * w + i % w) ⟨0, 0, 0, 0⟩ ∈ pix := by
      rw [List.getD_eq_getElem pix _ (by rw [hlen]; omega)]
      exact List.getElem_mem _
    exact roundtrip_color p _ hE hW hH hT (hpix _ hmem)
  have hpeq :
      (fromInternalFormat p (toInternalFormat p ⟨w, h, pix⟩).1 w h).pix = pix := by
    apply List.ext_getElem (by rw [hpixlen])
    intro i h1 h2
    rw [← List.getD_eq_getElem _ (⟨0, 0, 0, 0⟩ : RGBA) h1,
      ← List.getD_eq_getElem _ (⟨0, 0, 0, 0⟩ : RGBA) h2]
    exact hmain i (by rw [hpixlen, hlen] at h1; exact h1)
  unfold fromInternalFormat at hpeq ⊢
  simp only at hpeq ⊢
  rw [hpeq]

/-- A concrete 2×2 image whose four pixels carry the four default
palette colors. -/
def wImg : RGBAImg :=
  ⟨2, 2, [⟨0, 0, 0, 255⟩, ⟨1, 0x5b, 0x96, 255⟩,
    ⟨255, 255, 255, 255⟩, ⟨0x99, 255, 0, 255⟩]⟩

theorem image_roundtrip_witness :
    (defaultPalette.Empty.a = 255 ∧ defaultPalette.Wire.a = 255 ∧
      defaultPalette.Head.a = 255 ∧ defaultPalette.Tail.a = 255 ∧
      wImg.pix.length = wImg.w * wImg.h ∧
      (∀ c ∈ wImg.pix, c = defaultPalette.Empty ∨ c = defaultPalette.Wire ∨
        c = defaultPalette.Head ∨ c = defaultPalette.Tail)) ∧
    fromInternalFormat defaultPalette
      (toInternalFormat defaultPalette wImg).1 wImg.w wImg.h = wImg :=
  ⟨⟨by decide, by decide, by decide, by decide, by decide, by decide⟩,
    image_roundtrip defaultPalette wImg (by decide) (by decide) (by decide)
      (by decide) (by decide) (by decide)⟩

/-- The observable data of a `SimulationState` framebuffer: its
dimensions and the texture contents. -/
structure SimulationStateData where
  size : Nat × Nat
  pix : List Nat
deriving DecidableEq

/-- `SimulationState.SetData`: set `ss.size` to the given size and
replace the texture contents with the given bytes via `TexImage2D`.
The source performs no validation of `len(pix)` against the dimensions
and has no error return. -/
def SetData (ss : SimulationStateData) (pix : List Nat)
    (size : Nat × Nat) : SimulationStateData :=
  { ss with size := size, pix := pix }

/-- A second definition following the specification's words, for
comparison with `SetData`: bulk-overwrite all cell states, failing with
`SizeMismatch` if `len(bytes) ≠ width*height`. -/
def SetDataSpecContract (ss : SimulationStateData) (pix : List Nat)
    (size : Nat × Nat) : Except Unit SimulationStateData :=
  if pix.length ≠ size.1 * size.2 then Except.error ()
  else Except.ok { ss with size := size, pix := pix }

/-- C7 fails as stated: `SetData` performs no size validation.  With a
3-byte buffer and size 2×2 the claimed contract fails with
`SizeMismatch`, but the source function succeeds and overwrites the
state anyway. -/
theorem setdata_no_validation_counterexample :
    [1, 2, 3].length ≠ 2 * 2 ∧
    SetData ⟨(1, 1), [0]⟩ [1, 2, 3] (2, 2) = ⟨(2, 2), [1, 2, 3]⟩ ∧
    SetDataSpecContract ⟨(1, 1), [0]⟩ [1, 2, 3] (2, 2) = Except.error () :=
  ⟨by decide, rfl, rfl⟩

/-- C7 amended: `SetData` never fails and performs no size check: for
every prior state, byte buffer and size — including buffers whose
length differs from `width*height` — it sets the framebuffer
dimensions to the given size and overwrites the contents with the
buffer. -/
theorem setdata_overwrites_unconditionally (ss : SimulationStateData)
    (pix : List Nat) (size : Nat × Nat) :
    (SetData ss pix size).size = size ∧ (SetData ss pix size).pix = pix :=
  ⟨rfl, rfl⟩

/-- Two's-complement wrap of 64-bit signed integer arithmetic: Go's
`int` and `time.Duration` are 64-bit. -/
def wrap64 (x : Int) : Int :=
  (x + 2 ^ 63) % 2 ^ 64 - 2 ^ 63

/-- `time.Millisecond` in nanoseconds. -/
def nsMillisecond : Int := 1000000

/-- `time.Second` in nanoseconds. -/
def nsSecond : Int := 1000000000

/-- The clock state of `Application`: `stepInterval` (a
`time.Duration`, in nanoseconds) and `stepMultiplier` (an `int`). -/
structure Clock where
  interval : Int
  mult : Int
deriving DecidableEq

/-- `Application.decreaseClockspeed`: when the multiplier exceeds 1,
divide it by 10 (Go integer division truncates toward zero); otherwise
multiply the interval by 10 (64-bit arithmetic) and reset it to one
nanosecond when the product exceeds one second. -/
def decreaseClockspeed (c : Clock) : Clock :=
  if 1 < c.mult then { c with mult := Int.tdiv c.mult 10 }
  else
    let t := wrap64 (c.interval * 10)
    { c with interval := if nsSecond < t then 1 else t }

/-- `Application.increaseClockspeed`: when the interval is at most one
millisecond, multiply the multiplier by 10 (64-bit arithmetic);
otherwise divide the interval by 10 and clamp it below at one
millisecond. -/
def increaseClockspeed (c : Clock) : Clock :=
  if c.interval ≤ nsMillisecond then { c with mult := wrap64 (c.mult * 10) }
  else
    let t := Int.tdiv c.interval 10
    { c with interval := if t < nsMillisecond then nsMillisecond else t }

/-- C8 fails as stated: from a clock state whose multiplier is 5
(greater than 1), `Slower` divides the multiplier by 10 and produces 0,
which is below 1 — the claimed floor at 1 does not exist in the code. -/
theorem slower_multiplier_counterexample :
    1 < (5 : Int) ∧
    (decreaseClockspeed ⟨10000000, 5⟩).mult = 0 ∧
    ¬1 ≤ (decreaseClockspeed ⟨10000000, 5⟩).mult := by
  refine ⟨by decide, ?_, ?_⟩ <;> decide

/-- C8 amended: when the multiplier exceeds 1, `Slower` divides it by
10 with truncating integer division and leaves the interval alone; the
result is at least 1 whenever the multiplier is at least 10 (which
covers every power-of-ten multiplier the program actually reaches) but
is 0 for multipliers strictly between 1 and 10.  Otherwise the
multiplier is unchanged and the interval is multiplied by 10 in 64-bit
arithmetic, wrapping to one nanosecond (the minimum unit, i.e. maximum
speed) instead of clamping when the result exceeds one second. -/
theorem slower_behaviour (c : Clock) :
    (1 < c.mult →
      (decreaseClockspeed c).interval = c.interval ∧
      (decreaseClockspeed c).mult = Int.tdiv c.mult 10 ∧
      (10 ≤ c.mult → 1 ≤ (decreaseClockspeed c).mult) ∧
      (c.mult < 10 → (decreaseClockspeed c).mult = 0)) ∧
    (c.mult ≤ 1 →
      (decreaseClockspeed c).mult = c.mult ∧
      (nsSecond < wrap64 (c.interval * 10) →
        (decreaseClockspeed c).interval = 1) ∧
      (wrap64 (c.interval * 10) ≤ nsSecond →
        (decreaseClockspeed c).interval = wrap64 (c.interval * 10))) := by
  constructor
  · intro h
    unfold decreaseClockspeed
    rw [if_pos h]
    refine ⟨rfl, rfl, ?_, ?_⟩
    · intro h10
      show 1 ≤ Int.tdiv c.mult 10
      rw [Int.tdiv_eq_ediv (by omega) (by norm_num)]
      omega
    · intro h10
      show Int.tdiv c.mult 10 = 0
      rw [Int.tdiv_eq_ediv (by omega) (by norm_num)]
      omega
  · intro h
    unfold decreaseClockspeed
    rw [if_neg (by omega)]
    refine ⟨rfl, ?_, ?_⟩
    · intro ht
      show (if nsSecond < wrap64 (c.interval * 10) then 1
        else wrap64 (c.interval * 10)) = 1
      rw [if_pos ht]
    · intro ht
      show (if nsSecond < wrap64 (c.interval * 10) then 1
        else wrap64 (c.interval * 10)) = wrap64 (c.interval * 10)
      rw [if_neg (by omega)]

theorem slower_behaviour_witness :
    (1 < (100 : Int) ∧ 10 ≤ (100 : Int) ∧
      (decreaseClockspeed ⟨10000000, 100⟩).mult = Int.tdiv 100 10 ∧
      1 ≤ (decreaseClockspeed ⟨10000000, 100⟩).mult) ∧
    ((1 : Int) ≤ 1 ∧
      (decreaseClockspeed ⟨10000000, 1⟩).interval = wrap64 (10000000 * 10)) :=
  ⟨⟨by decide, by decide,
    ((slower_behaviour ⟨10000000, 100⟩).1 (by decide)).2.1,
    ((slower_behaviour ⟨10000000, 100⟩).1 (by decide)).2.2.1 (by decide)⟩,
  ⟨by decide,
    ((slower_behaviour ⟨10000000, 1⟩).2 (by decide)).2.2 (by decide)⟩⟩

/-- The initial clock state set in `Application.Initialize`:
`stepInterval = time.Millisecond * 10`, `stepMultiplier = 1`. -/
def initClock : Clock := ⟨10000000, 1⟩

/-- One key press adjusting the clock: `W` (faster) or `S` (slower). -/
inductive ClockOp where
  | inc
  | dec

/-- Apply one clock adjustment. -/
def applyOp (c : Clock) : ClockOp → Clock
  | ClockOp.inc => increaseClockspeed c
  | ClockOp.dec => decreaseClockspeed c

/-- Apply a sequence of clock adjustments, oldest first. -/
def runOps (c : Clock) (ops : List ClockOp) : Clock :=
  ops.foldl applyOp c

/-- The number of `increaseClockspeed` calls in a sequence. -/
def countInc : List ClockOp → Nat
  | [] => 0
  | ClockOp.inc :: rest => countInc rest + 1
  | ClockOp.dec :: rest => countInc rest

set_option maxRecDepth 10000 in
/-- C10 fails as stated: after 20 consecutive `increaseClockspeed`
calls from the initial state the multiplier has been multiplied by 10
nineteen times and the 64-bit product of the 19th multiplication,
10^19, wraps to a negative value — not a positive power of ten. -/
theorem clock_invariant_counterexample :
    (runOps initClock (List.replicate 20 ClockOp.inc)).mult =
      -8446744073709551616 ∧
    (runOps initClock (List.replicate 20 ClockOp.inc)).mult < 1 ∧
    ∀ k : Nat, (runOps initClock (List.replicate 20 ClockOp.inc)).mult ≠ 10 ^ k := by
  have hv : (runOps initClock (List.replicate 20 ClockOp.inc)).mult =
      -8446744073709551616 := by decide
  refine ⟨hv, by rw [hv]; decide, ?_⟩
  intro k hk
  rw [hv] at hk
  have hp : (0 : Int) < 10 ^ k := by positivity
  omega

lemma interval_invariant_step (c : Clock) (op : ClockOp)
    (h1 : 1 ≤ c.interval) (h2 : c.interval ≤ nsSecond) :
    1 ≤ (applyOp c op).interval ∧ (applyOp c op).interval ≤ nsSecond := by
  cases op
  · show 1 ≤ (increaseClockspeed c).interval ∧
      (increaseClockspeed c).interval ≤ nsSecond
    unfold increaseClockspeed
    by_cases hle : c.interval ≤ nsMillisecond
    · rw [if_pos hle]
      exact ⟨h1, h2⟩
    · rw [if_neg hle]
      have h0 : (0 : Int) ≤ c.interval := by unfold nsMillisecond at hle; omega
      show 1 ≤ (if Int.tdiv c.interval 10 < nsMillisecond then nsMillisecond
          else Int.tdiv c.interval 10) ∧
        (if Int.tdiv c.interval 10 < nsMillisecond then nsMillisecond
          else Int.tdiv c.interval 10) ≤ nsSecond
      rw [Int.tdiv_eq_ediv h0 (by norm_num)]
      unfold nsMillisecond nsSecond at *
      constructor
      · split <;> omega
      · split <;> omega
  · show 1 ≤ (decreaseClockspeed c).interval ∧
      (decreaseClockspeed c).interval ≤ nsSecond
    unfold decreaseClockspeed
    by_cases hm : 1 < c.mult
    · rw [if_pos hm]
      exact ⟨h1, h2⟩
    · rw [if_neg hm]
      have hwrap : wrap64 (c.interval * 10) = c.interval * 10 := by
        unfold wrap64
        unfold nsSecond at h2
        omega
      show 1 ≤ (if nsSecond < wrap64 (c.interval * 10) then 1
          else wrap64 (c.interval * 10)) ∧
        (if nsSecond < wrap64 (c.interval * 10) then 1
          else wrap64 (c.interval * 10)) ≤ nsSecond
      rw [hwrap]
      unfold nsSecond at *
      constructor
      · split <;> omega
      · split <;> omega

lemma interval_invariant (ops : List ClockOp) (c : Clock)
    (h1 : 1 ≤ c.interval) (h2 : c.interval ≤ nsSecond) :
    1 ≤ (runOps c ops).interval ∧ (runOps c ops).interval ≤ nsSecond := by
  induction ops generalizing c with
  | nil => exact ⟨h1, h2⟩
  | cons op rest ih =>
    have hstep := interval_invariant_step c op h1 h2
    simp only [runOps, List.foldl_cons]
    exact ih (applyOp c op) hstep.1 hstep.2

lemma mult_invariant_aux (ops : List ClockOp) (c : Clock)
    (hinv : ∃ k : Nat, c.mult = 10 ^ k ∧ k + countInc ops ≤ 18) :
    ∃ k : Nat, k ≤ 18 ∧ (runOps c ops).mult = 10 ^ k := by
  induction ops generalizing c with
  | nil =>
    obtain ⟨k, hk, hle⟩ := hinv
    exact ⟨k, by unfold countInc at hle; omega, hk⟩
  | cons op rest ih =>
    obtain ⟨k, hk, hle⟩ := hinv
    simp only [runOps, List.foldl_cons]
    cases op
    · show ∃ k2 : Nat, k2 ≤ 18 ∧ (runOps (increaseClockspeed c) rest).mult = 10 ^ k2
      have hci : countInc (ClockOp.inc :: rest) = countInc rest + 1 := rfl
      by_cases hle2 : c.interval ≤ nsMillisecond
      · apply ih
        refine ⟨k + 1, ?_, by omega⟩
        show (increaseClockspeed c).mult = 10 ^ (k + 1)
        unfold increaseClockspeed
        rw [if_pos hle2]
        show wrap64 (c.mult * 10) = 10 ^ (k + 1)
        rw [hk, ← pow_succ]
        have hbound : (10 : Int) ^ (k + 1) ≤ 10 ^ 18 :=
          pow_le_pow_right₀ (by norm_num) (by omega)
        have hpos : (0 : Int) ≤ 10 ^ (k + 1) := by positivity
        unfold wrap64
        have h18 : (10 : Int) ^ 18 = 1000000000000000000 := by norm_num
        omega
      · apply ih
        refine ⟨k, ?_, by omega⟩
        show (increaseClockspeed c).mult = 10 ^ k
        unfold increaseClockspeed
        rw [if_neg hle2]
        exact hk
    · show ∃ k2 : Nat, k2 ≤ 18 ∧ (runOps (decreaseClockspeed c) rest).mult = 10 ^ k2
      have hcd : countInc (ClockOp.dec :: rest) = countInc rest := rfl
      by_cases hm : 1 < c.mult
      · have hk1 : 1 ≤ k := by
          by_contra h0
          have hk0 : k = 0 := by omega
          rw [hk0] at hk
          simp at hk
          omega
        apply ih
        refine ⟨k - 1, ?_, by omega⟩
        show (decreaseClockspeed c).mult = 10 ^ (k - 1)
        unfold decreaseClockspeed
        rw [if_pos hm]
        show Int.tdiv c.mult 10 = 10 ^ (k - 1)
        have hsplit : (10 : Int) ^ k = 10 ^ (k - 1) * 10 := by
          conv_lhs => rw [show k = (k - 1) + 1 by omega]
          rw [pow_succ]
        rw [hk, hsplit, Int.tdiv_eq_ediv (by positivity) (by norm_num),
          Int.mul_ediv_cancel _ (by norm_num)]
      · apply ih
        refine ⟨k, ?_, by omega⟩
        show (decreaseClockspeed c).mult = 10 ^ k
        unfold decreaseClockspeed
        rw [if_neg hm]
        exact hk

/-- C10 amended: starting from the initial clock state (interval 10 ms,
multiplier 1), the step interval stays between one nanosecond and one
second for every sequence of `increaseClockspeed` / `decreaseClockspeed`
calls; and for every sequence containing at most 18 increase calls the
multiplier stays a power of ten `10^k` with `k ≤ 18` (hence at least 1,
so the unguarded division in `decreaseClockspeed` never produces 0).
With 19 or more increase calls the 64-bit multiplication can overflow
and the multiplier invariant fails (see the counterexample). -/
theorem clock_invariant (ops : List ClockOp) :
    (1 ≤ (runOps initClock ops).interval ∧
      (runOps initClock ops).interval ≤ nsSecond) ∧
    (countInc ops ≤ 18 →
      ∃ k : Nat, k ≤ 18 ∧ (runOps initClock ops).mult = 10 ^ k) := by
  constructor
  · exact interval_invariant ops initClock (by norm_num [initClock])
      (by norm_num [initClock, nsSecond])
  · intro h
    exact mult_invariant_aux ops initClock ⟨0, by norm_num [initClock], by omega⟩

theorem clock_invariant_witness :
    countInc [ClockOp.inc, ClockOp.inc, ClockOp.dec] ≤ 18 ∧
    (∃ k : Nat, k ≤ 18 ∧
      (runOps initClock [ClockOp.inc, ClockOp.inc, ClockOp.dec]).mult = 10 ^ k) :=
  ⟨by decide,
    (clock_invariant [ClockOp.inc, ClockOp.inc, ClockOp.dec]).2 (by decide)⟩

end Wireworld
